import Mathlib

/-!
Verification of the broker-bridge core of the `graphql_mqtt_server` repository
(`server/main.py`): the in-memory message store and its queries, the inbound
payload decode, the bounded delivery queue, the topic registry, and the
per-topic live subscription loop.

Machine integers do not occur; Python `datetime` values are modelled as `Nat`
instants (only their total order and ISO text round-trip matter here),
and Python lists/sets/dicts as Lean lists with the source's exact operations.
-/

namespace MqttServer

/-- The `Message` strawberry type of `server/main.py`:
`id`, `topic`, `content` strings, a `timestamp` instant, optional `sender`. -/
structure Message where
  id : String
  topic : String
  content : String
  timestamp : Nat
  sender : Option String
deriving DecidableEq, Repr

/-- The `TopicInfo` strawberry type: per-topic aggregate statistics. -/
structure TopicInfo where
  name : String
  message_count : Nat
  last_message_time : Option Nat
  is_subscribed : Bool
deriving DecidableEq, Repr

/-! ## Stable descending sort

`server/main.py` sorts with Python's `sorted(xs, key=..., reverse=True)`.
Python's `sorted` is guaranteed stable, and `reverse=True` maintains
stability: the output is in descending key order and elements with equal
keys keep their original relative order.  These two properties determine
the output uniquely, so we embed `sorted(..., reverse=True)` as a
structurally recursive stable insertion sort on a `Nat`-valued key. -/

/-- Insert `m` before the first element whose key is `≤ key m`
(so after every strictly greater key, and before earlier-arrived equal keys
of the not-yet-inserted suffix — the stable position for a descending sort). -/
def insertByKey (key : α → Nat) (m : α) : List α → List α
  | [] => [m]
  | n :: ns => if key m < key n then n :: insertByKey key m ns else m :: n :: ns

/-- Stable descending sort by `key`; embeds `sorted(xs, key=key, reverse=True)`. -/
def sortByKeyDesc (key : α → Nat) (l : List α) : List α :=
  l.foldr (insertByKey key) []

/-! ## `Query.query_topic` (server/main.py lines 176-181)

```python
topic_messages = [msg for msg in messages_store if msg.topic == topic]
return sorted(topic_messages, key=lambda x: x.timestamp, reverse=True)[:limit]
```
-/

/-- `Query.query_topic`: filter the store by exact topic equality, sort by
timestamp descending (Python's stable `sorted` with `reverse=True`), and
keep the first `limit` entries. -/
def query_topic (store : List Message) (topic : String) (limit : Nat) : List Message :=
  (sortByKeyDesc (fun m => m.timestamp)
    (store.filter (fun m => m.topic == topic))).take limit

/-- Concrete store elements used for counterexamples/witnesses:
two distinct messages on topic "a" with the same timestamp. -/
def msgA : Message :=
  { id := "1", topic := "a", content := "x", timestamp := 5, sender := none }

def msgB : Message :=
  { id := "2", topic := "a", content := "y", timestamp := 5, sender := none }

/-! ## `MQTTHandler.on_message` inbound decode (server/main.py lines 72-106)

The payload bytes are decoded as UTF-8 to `content`, then `json.loads` is
attempted.  We embed the result of that attempt: `none` models a
`json.JSONDecodeError`, `some v` a successfully parsed JSON value `v`. -/

/-- A parsed JSON value, as produced by Python's `json.loads`:
null, bool, number, string, array or object (key/value pairs, later
duplicate keys overriding earlier ones as in `json.loads`). -/
inductive JValue where
  | jnull
  | jbool (b : Bool)
  | jnum (n : Int)
  | jstr (s : String)
  | jarr (xs : List JValue)
  | jobj (fields : List (String × JValue))

/-- Python `k in message_data` on the parsed dict. -/
def hasKey (fields : List (String × JValue)) (k : String) : Bool :=
  fields.any (fun p => p.1 == k)

/-- Python `message_data[k]`: `json.loads` keeps the last of duplicate keys,
so lookup returns the last binding. -/
def jlookup : List (String × JValue) → String → Option JValue
  | [], _ => none
  | p :: ps, k =>
    match jlookup ps k with
    | some v => some v
    | none => if p.1 == k then some p.2 else none

/-- The source's structured-shape test (line 80):
`isinstance(message_data, dict) and all(k in message_data for k in
['content', 'sender', 'id', 'timestamp'])`. -/
def has_required_keys (fields : List (String × JValue)) : Bool :=
  hasKey fields "content" && hasKey fields "sender" && hasKey fields "id" &&
    hasKey fields "timestamp"

/-- Whether a parse outcome takes the structured branch of `on_message`. -/
def is_structured_payload : Option JValue → Bool
  | some (JValue.jobj fields) => has_required_keys fields
  | _ => false

/-- A decimal digit's value, `none` for any other character. -/
def digitVal? (c : Char) : Option Nat :=
  if 48 ≤ c.toNat ∧ c.toNat ≤ 57 then some (c.toNat - 48) else none

def parseNatAux : List Char → Nat → Option Nat
  | [], acc => some acc
  | c :: cs, acc =>
    match digitVal? c with
    | some d => parseNatAux cs (acc * 10 + d)
    | none => none

/-- Models `datetime.fromisoformat`: instants are modelled as `Nat` and their
ISO text as the decimal numeral, so parsing reads a (non-empty) decimal
numeral; `none` models the `ValueError` raised on text that is not a valid
ISO date-time. -/
def fromisoformat (s : String) : Option Nat :=
  match s.data with
  | [] => none
  | cs => parseNatAux cs 0

/-- The Python `sender` field value of a structured payload: a JSON string
gives `some s`, JSON `null` gives Python `None`.  Any other JSON type is
outside this typed embedding (Python would store an ill-typed object there);
we map it to `none` (dropped), which no claim exercises. -/
def jsender : JValue → Option (Option String)
  | JValue.jstr s => some (some s)
  | JValue.jnull => some none
  | _ => none

/-- The fallback `Message` built on lines 89-97 and 98-106: fresh uuid id,
current time, fixed sender `"external_client"`, raw decoded text as content. -/
def fallback_message (topic content freshId : String) (now : Nat) : Message :=
  { id := freshId, topic := topic, content := content, timestamp := now,
    sender := some "external_client" }

/-- The structured branch (lines 82-88): rebuild a `Message` from the dict's
`id`/`content`/`sender`/`timestamp` fields.  `none` models the exception path
(e.g. `datetime.fromisoformat` raising on a bad timestamp, caught by the
outer handler on line 120, so no message is produced); non-string
`id`/`content` values are likewise outside the typed embedding. -/
def structured_decode (fields : List (String × JValue)) (topic : String) :
    Option Message :=
  match jlookup fields "id", jlookup fields "content", jlookup fields "sender",
      jlookup fields "timestamp" with
  | some (JValue.jstr i), some (JValue.jstr c), some sv, some (JValue.jstr ts) =>
    match jsender sv, fromisoformat ts with
    | some snd, some tm =>
      some { id := i, topic := topic, content := c, timestamp := tm, sender := snd }
    | _, _ => none
  | _, _, _, _ => none

/-- `MQTTHandler.on_message` decode (lines 72-106): `parseResult` is the
outcome of `json.loads` on the UTF-8 `content`; a dict with all four required
keys takes the structured branch, everything else falls back to a fresh
external-client message. -/
def on_message_decode (parseResult : Option JValue)
    (topic content freshId : String) (now : Nat) : Option Message :=
  match parseResult with
  | some (JValue.jobj fields) =>
    if has_required_keys fields then
      structured_decode fields topic
    else
      some (fallback_message topic content freshId now)
  | some _ => some (fallback_message topic content freshId now)
  | none => some (fallback_message topic content freshId now)

/-! ## `Mutation.clear_topic_messages` (server/main.py lines 280-287)

```python
initial_count = len(messages_store)
messages_store = [msg for msg in messages_store if msg.topic != topic]
cleared_count = initial_count - len(messages_store)
```
-/

/-- `Mutation.clear_topic_messages`: the new store and the cleared count
(the count is what the returned string reports). -/
def clear_topic_messages (store : List Message) (topic : String) :
    List Message × Nat :=
  let newStore := store.filter (fun m => m.topic != topic)
  (newStore, store.length - newStore.length)

/-- A concrete store with 5 messages on "test/messages" and 2 on "other"
(the spec's Scenario 4). -/
def storeScenario4 : List Message :=
  [{ id := "1", topic := "test/messages", content := "a", timestamp := 1, sender := none },
   { id := "2", topic := "test/messages", content := "b", timestamp := 2, sender := none },
   { id := "3", topic := "other", content := "c", timestamp := 3, sender := none },
   { id := "4", topic := "test/messages", content := "d", timestamp := 4, sender := none },
   { id := "5", topic := "test/messages", content := "e", timestamp := 5, sender := none },
   { id := "6", topic := "other", content := "f", timestamp := 6, sender := none },
   { id := "7", topic := "test/messages", content := "g", timestamp := 7, sender := none }]

/-! ## The delivery queue (server/main.py lines 45, 111-116, 258-262)

`mqtt_messages_queue = asyncio.Queue(maxsize=1000)`; every producer uses
`put_nowait` inside `try/except asyncio.QueueFull`, dropping the item with a
diagnostic when the queue is full. -/

/-- The configured capacity of `mqtt_messages_queue`. -/
def queue_maxsize : Nat := 1000

/-- `put_nowait` wrapped in `try/except QueueFull`: append at the back when
below capacity, otherwise leave the queue unchanged (item dropped). -/
def put_nowait (cap : Nat) (queue : List Message) (m : Message) : List Message :=
  if queue.length < cap then queue ++ [m] else queue

/-- A sequence of producer inserts with no consumer draining the queue. -/
def push_all (cap : Nat) (queue : List Message) (msgs : List Message) :
    List Message :=
  msgs.foldl (put_nowait cap) queue

/-! ## `MQTTHandler.publish_message` (server/main.py lines 150-161)

```python
try:
    result = self.client.publish(topic, message)
    if result.rc == mqtt.MQTT_ERR_SUCCESS: return True
    else: return False
except Exception as e: return False
```
-/

/-- `paho.mqtt.MQTT_ERR_SUCCESS`. -/
def MQTT_ERR_SUCCESS : Nat := 0

/-- Outcome of the underlying `paho` `client.publish` call: it either returns
a result object carrying a reason code `rc`, or raises (transport error). -/
inductive PublishOutcome where
  | returned (rc : Nat)
  | raised
deriving DecidableEq, Repr

/-- `MQTTHandler.publish_message`: a total `Bool`-valued function of the
broker call's outcome — true only on `MQTT_ERR_SUCCESS`, false on any other
reason code, false when the call raises (the exception is caught). -/
def publish_message : PublishOutcome → Bool
  | PublishOutcome.returned rc => rc == MQTT_ERR_SUCCESS
  | PublishOutcome.raised => false

/-! ## `MQTTHandler.subscribe_to_topic` registry update (lines 134-140)

`self.subscribed_topics` is a Python `set`, modelled as a duplicate-free
list; `subscribe_to_topic` performs `set.add` under the lock (the broker
call that may follow does not touch the registry). -/

/-- The registry effect of `MQTTHandler.subscribe_to_topic`: `set.add`. -/
def subscribe_to_topic (reg : List String) (topic : String) : List String :=
  if topic ∈ reg then reg else reg ++ [topic]

/-! ## `Mutation.send_to_topic` (server/main.py lines 226-266)

Builds the payload (fresh uuid, current time, sender defaulted via Python
`or`), publishes, and only in the success branch appends the message to the
store and pushes it onto the queue; on failure raises
`Exception(f"Failed to send message to topic: ...")`. -/

/-- Python `input.sender or "graphql_client"`: `None` and the empty string
are both falsy, so both default. -/
def sender_or_default : Option String → String
  | none => "graphql_client"
  | some s => if s == "" then "graphql_client" else s

/-- The message `send_to_topic` constructs for topic/content/fresh id/now
(its timestamp round-trips through `isoformat`/`fromisoformat`, i.e. is
`now` itself). -/
def sent_message (topic content : String) (sender : Option String)
    (freshId : String) (now : Nat) : Message :=
  { id := freshId, topic := topic, content := content, timestamp := now,
    sender := some (sender_or_default sender) }

/-- Result of the `send_to_topic` mutation: the new store, the new queue, and
either the returned message or the raised error text. -/
def send_to_topic (store queue : List Message) (cap : Nat) (publishOk : Bool)
    (topic content : String) (sender : Option String) (freshId : String)
    (now : Nat) : (List Message × List Message) × Except String Message :=
  let message := sent_message topic content sender freshId now
  if publishOk then
    ((store ++ [message], put_nowait cap queue message), Except.ok message)
  else
    ((store, queue),
      Except.error ("Failed to send message to topic: " ++ topic))

/-! ## `Subscription.subscribe_topic_messages` (server/main.py lines 341-375)

One iteration of the per-topic live-subscription loop: dequeue the front of
the shared queue (`none` models the 1s timeout on an empty queue); yield the
message iff `message.topic == topic` (exact string equality), otherwise
re-push it onto the shared queue with `put_nowait` (dropped if full). -/

/-- One step of the subscription polling loop: the queue afterwards, and the
message yielded to the caller (if any). -/
def subscription_step (topic : String) (cap : Nat) (queue : List Message) :
    List Message × Option Message :=
  match queue with
  | [] => ([], none)
  | m :: rest =>
    if m.topic == topic then (rest, some m)
    else (put_nowait cap rest m, none)

/-- Modelled from the spec: MQTT wildcard topic-filter matching, the
broker-side semantics of the wire contract ("subscriptions may use wildcard
topic filters") — external to this repository, used only to exhibit a filter
that wildcard-matches a topic the subscription loop nevertheless rejects.
`+` matches exactly one level, `#` the whole remainder. -/
def splitOnSlash : List Char → List (List Char)
  | [] => [[]]
  | c :: cs =>
    match splitOnSlash cs with
    | [] => if c = '/' then [[], []] else [[c]]
    | r :: rs => if c = '/' then [] :: r :: rs else (c :: r) :: rs

def levels_match : List (List Char) → List (List Char) → Bool
  | [], [] => true
  | [['#']], _ => true
  | f :: fs, t :: ts => (f == ['+'] || f == t) && levels_match fs ts
  | _, _ => false

def mqtt_wildcard_match (filter topic : String) : Bool :=
  levels_match (splitOnSlash filter.data) (splitOnSlash topic.data)

/-- The message the C10 wildcard example dequeues. -/
def tempMsg : Message :=
  { id := "t1", topic := "sensors/temperature", content := "25.5", timestamp := 3,
    sender := some "sensor_01" }

/-! ## `Query.query_all_topics` (server/main.py lines 183-215)

Walks the store accumulating per-topic statistics in a dict (insertion
ordered, keyed by topic; first sighting sets `count = 1` and
`last_time = msg.timestamp`, later sightings increment the count and raise
`last_time` if strictly newer), builds one `TopicInfo` per dict entry, and
returns them sorted by `last_message_time or datetime.min` descending.
The dict is modelled as an insertion-ordered association list
`(topic, count, last_time)`. -/

/-- One iteration of the statistics-gathering loop over `messages_store`. -/
def upd_stats : List (String × Nat × Nat) → Message → List (String × Nat × Nat)
  | [], m => [(m.topic, 1, m.timestamp)]
  | (t, c, lt) :: rest, m =>
    if m.topic == t then
      (t, c + 1, if lt < m.timestamp then m.timestamp else lt) :: rest
    else (t, c, lt) :: upd_stats rest m

/-- The `topic_stats` dict after the gathering loop. -/
def topic_stats (store : List Message) : List (String × Nat × Nat) :=
  store.foldl upd_stats []

/-- `Query.query_all_topics`: one `TopicInfo` per dict entry, sorted by
`last_message_time or datetime.min` descending (Python stable sort). -/
def query_all_topics (store : List Message) (reg : List String) :
    List TopicInfo :=
  sortByKeyDesc (fun x => x.last_message_time.getD 0)
    ((topic_stats store).map (fun e =>
      { name := e.1, message_count := e.2.1, last_message_time := some e.2.2,
        is_subscribed := reg.contains e.1 }))

/-- Correctness of one dict entry against the processed prefix of the store:
the count is the number of messages with that topic, and `last_time` is the
maximum timestamp among them (in particular one actually seen). -/
def entry_ok (processed : List Message) (e : String × Nat × Nat) : Prop :=
  e.2.1 = (processed.filter (fun m => m.topic == e.1)).length ∧
  e.2.2 ∈ (processed.filter (fun m => m.topic == e.1)).map Message.timestamp ∧
  ∀ x ∈ (processed.filter (fun m => m.topic == e.1)).map Message.timestamp,
    x ≤ e.2.2

/-- Correctness of the whole dict: keys are exactly the distinct topics of
the processed prefix, without duplicates, and every entry is accurate. -/
def stats_ok (processed : List Message)
    (stats : List (String × Nat × Nat)) : Prop :=
  (stats.map Prod.fst).Nodup ∧
  (∀ t : String, t ∈ stats.map Prod.fst ↔ t ∈ processed.map Message.topic) ∧
  ∀ e ∈ stats, entry_ok processed e

/-- A concrete two-topic store for the C8 witness: two messages on
topic "a" (timestamps 5 and 8) and one on "sensors/temperature". -/
def storeTwoTopics : List Message :=
  [msgA, tempMsg,
   { id := "9", topic := "a", content := "z", timestamp := 8, sender := none }]

/-! ## Theorems -/

theorem insertByKey_perm (key : α → Nat) (m : α) (l : List α) :
    (insertByKey key m l).Perm (m :: l) := by
  induction l with
  | nil => simp [insertByKey]
  | cons n ns ih =>
    simp only [insertByKey]
    split
    · exact (ih.cons n).trans (List.Perm.swap m n ns)
    · exact List.Perm.refl _

theorem sortByKeyDesc_perm (key : α → Nat) (l : List α) :
    (sortByKeyDesc key l).Perm l := by
  induction l with
  | nil => simp [sortByKeyDesc]
  | cons a l ih =>
    simpa [sortByKeyDesc] using (insertByKey_perm key a _).trans (ih.cons a)

theorem insertByKey_pairwise (key : α → Nat) (m : α) {l : List α}
    (h : l.Pairwise (fun a b => key b ≤ key a)) :
    (insertByKey key m l).Pairwise (fun a b => key b ≤ key a) := by
  induction l with
  | nil => simp [insertByKey]
  | cons n ns ih =>
    rw [List.pairwise_cons] at h
    simp only [insertByKey]
    split
    · rename_i hlt
      rw [List.pairwise_cons]
      refine ⟨fun x hx => ?_, ih h.2⟩
      rcases List.mem_cons.mp ((insertByKey_perm key m ns).mem_iff.mp hx) with hx | hx
      · subst hx; exact Nat.le_of_lt hlt
      · exact h.1 x hx
    · rename_i hge
      push_neg at hge
      rw [List.pairwise_cons]
      refine ⟨fun x hx => ?_, List.pairwise_cons.mpr h⟩
      rcases List.mem_cons.mp hx with hx | hx
      · subst hx; exact hge
      · exact Nat.le_trans (h.1 x hx) hge

theorem sortByKeyDesc_pairwise (key : α → Nat) (l : List α) :
    (sortByKeyDesc key l).Pairwise (fun a b => key b ≤ key a) := by
  induction l with
  | nil => simp [sortByKeyDesc]
  | cons a l ih => exact insertByKey_pairwise key a ih

theorem insertByKey_filter_key_eq (key : α → Nat) (m : α) (l : List α) (s : Nat)
    (hm : key m = s) :
    (insertByKey key m l).filter (fun x => key x == s) =
      m :: l.filter (fun x => key x == s) := by
  have hm' : (key m == s) = true := beq_iff_eq.mpr hm
  induction l with
  | nil => simp [insertByKey, List.filter_cons, hm']
  | cons n ns ih =>
    simp only [insertByKey]
    split
    · rename_i hlt
      have hns : (key n == s) = false := by
        simp only [beq_eq_false_iff_ne]
        omega
      simp [List.filter_cons, hns, ih]
    · simp [List.filter_cons, hm']

theorem insertByKey_filter_key_ne (key : α → Nat) (m : α) (l : List α) (s : Nat)
    (hm : key m ≠ s) :
    (insertByKey key m l).filter (fun x => key x == s) =
      l.filter (fun x => key x == s) := by
  have hm' : (key m == s) = false := beq_eq_false_iff_ne.mpr hm
  induction l with
  | nil => simp [insertByKey, List.filter_cons, hm']
  | cons n ns ih =>
    simp only [insertByKey]
    split
    · cases hns : (key n == s) <;> simp [List.filter_cons, hns, ih]
    · simp [List.filter_cons, hm']

/-- Stability of the embedded sort: elements of any one key class appear in
the output exactly in their input order. -/
theorem sortByKeyDesc_filter_key (key : α → Nat) (l : List α) (s : Nat) :
    (sortByKeyDesc key l).filter (fun x => key x == s) =
      l.filter (fun x => key x == s) := by
  induction l with
  | nil => simp [sortByKeyDesc]
  | cons a l ih =>
    show (insertByKey key a (sortByKeyDesc key l)).filter _ = _
    by_cases ha : key a = s
    · rw [insertByKey_filter_key_eq key a _ s ha, ih]
      simp [List.filter_cons, beq_iff_eq.mpr ha]
    · rw [insertByKey_filter_key_ne key a _ s ha, ih]
      simp [List.filter_cons, beq_eq_false_iff_ne.mpr ha]

/-- Claim C1 as stated is false: with two distinct messages of equal timestamp
on topic "a", appended in the order `[msgA, msgB]`, `query_topic` returns
`[msgA, msgB]` — ties between equal timestamps keep arrival order ascending
(Python's `sorted` is stable even with `reverse=True`) — whereas the claim
demands arrival order descending, i.e. `[msgB, msgA]`. -/
theorem query_topic_tie_counterexample :
    query_topic [msgA, msgB] "a" 10 = [msgA, msgB] ∧
    query_topic [msgA, msgB] "a" 10 ≠ [msgB, msgA] ∧ msgA ≠ msgB ∧
    msgA.topic = "a" ∧ msgB.topic = "a" ∧ msgA.timestamp = msgB.timestamp := by
  decide

/-- Claim C1 (amended): `query_topic store t limit` returns up to `limit`
messages, all with topic `t`, ordered by timestamp descending with ties
between equal timestamps broken by arrival order in the store **ascending**
(stable sort); when `limit ≥` the number of messages with topic `t` it
returns exactly those messages (a permutation of the topic-filtered store,
and within each timestamp class exactly the store order). -/
theorem query_topic_spec (store : List Message) (t : String) (limit : Nat) :
    (query_topic store t limit).length ≤ limit ∧
    (∀ m ∈ query_topic store t limit, m.topic = t) ∧
    (query_topic store t limit).Pairwise (fun a b => b.timestamp ≤ a.timestamp) ∧
    ((store.filter (fun m => m.topic == t)).length ≤ limit →
      (query_topic store t limit).Perm (store.filter (fun m => m.topic == t)) ∧
      ∀ s, (query_topic store t limit).filter (fun m => m.timestamp == s) =
        store.filter (fun m => m.topic == t && m.timestamp == s)) := by
  refine ⟨?_, ?_, ?_, ?_⟩
  · simp [query_topic]
  · intro m hm
    have hm' : m ∈ store.filter (fun m => m.topic == t) :=
      (sortByKeyDesc_perm _ _).mem_iff.mp (List.mem_of_mem_take hm)
    simpa using (List.mem_filter.mp hm').2
  · exact ((sortByKeyDesc_pairwise _ _).sublist (List.take_sublist _ _))
  · intro hlim
    have hlen : (sortByKeyDesc (fun m => m.timestamp)
        (store.filter (fun m => m.topic == t))).length ≤ limit := by
      rwa [(sortByKeyDesc_perm _ _).length_eq]
    have htake : query_topic store t limit =
        sortByKeyDesc (fun m => m.timestamp) (store.filter (fun m => m.topic == t)) :=
      List.take_of_length_le hlen
    constructor
    · rw [htake]; exact sortByKeyDesc_perm _ _
    · intro s
      rw [htake, sortByKeyDesc_filter_key, List.filter_filter]
      simp only [Bool.and_comm]

/-- Claim C1 witness: the amended theorem applied at a concrete store where the
limit exceeds the topic's message count. -/
theorem query_topic_spec_witness :
    ([msgA, msgB].filter (fun m => m.topic == "a")).length ≤ 10 ∧
    (query_topic [msgA, msgB] "a" 10).Perm ([msgA, msgB].filter (fun m => m.topic == "a")) := by
  refine ⟨by decide, ?_⟩
  exact ((query_topic_spec [msgA, msgB] "a" 10).2.2.2 (by decide)).1

theorem hasKey_of_jlookup_isSome (fields : List (String × JValue)) (k : String)
    (h : (jlookup fields k).isSome = true) : hasKey fields k = true := by
  induction fields with
  | nil => simp [jlookup] at h
  | cons p ps ih =>
    simp only [jlookup] at h
    simp only [hasKey, List.any_cons, Bool.or_eq_true]
    cases hps : jlookup ps k with
    | some w =>
      right
      simpa [hasKey] using ih (by simp [hps])
    | none =>
      rw [hps] at h
      simp only at h
      by_cases hpk : (p.1 == k) = true
      · left; exact hpk
      · simp [hpk] at h

theorem hasKey_of_jlookup_eq_some (fields : List (String × JValue)) (k : String)
    (v : JValue) (h : jlookup fields k = some v) : hasKey fields k = true :=
  hasKey_of_jlookup_isSome fields k (by simp [h])

/-- Claim C2 (confirmed): an inbound payload that parses as a JSON object with
all four keys `content`, `sender`, `id`, `timestamp` — string-valued, with
`timestamp` valid ISO date-time text denoting instant `tm` — decodes to a
`Message` preserving exactly the payload's `id`, `content`, `sender` and
`timestamp`; the fresh id and current time are not used. -/
theorem on_message_roundtrip (fields : List (String × JValue))
    (topic content freshId : String) (now : Nat)
    (i c snd ts : String) (tm : Nat)
    (hid : jlookup fields "id" = some (JValue.jstr i))
    (hcontent : jlookup fields "content" = some (JValue.jstr c))
    (hsender : jlookup fields "sender" = some (JValue.jstr snd))
    (hts : jlookup fields "timestamp" = some (JValue.jstr ts))
    (htm : fromisoformat ts = some tm) :
    on_message_decode (some (JValue.jobj fields)) topic content freshId now =
      some { id := i, topic := topic, content := c, timestamp := tm,
             sender := some snd } := by
  have hkeys : has_required_keys fields = true := by
    simp only [has_required_keys, Bool.and_eq_true]
    exact ⟨⟨⟨hasKey_of_jlookup_eq_some _ _ _ hcontent,
      hasKey_of_jlookup_eq_some _ _ _ hsender⟩,
      hasKey_of_jlookup_eq_some _ _ _ hid⟩,
      hasKey_of_jlookup_eq_some _ _ _ hts⟩
  simp [on_message_decode, hkeys, structured_decode, hid, hcontent, hsender,
    hts, jsender, htm]

/-- Claim C2 witness: a concrete structured payload round-trips. -/
theorem on_message_roundtrip_witness :
    on_message_decode
      (some (JValue.jobj [("content", JValue.jstr "hello"),
        ("sender", JValue.jstr "graphql_client"), ("id", JValue.jstr "u-1"),
        ("timestamp", JValue.jstr "42")]))
      "test/messages" "raw" "fresh" 7 =
      some { id := "u-1", topic := "test/messages", content := "hello",
             timestamp := 42, sender := some "graphql_client" } :=
  on_message_roundtrip _ _ _ _ _ "u-1" "hello" "graphql_client" "42" 42
    rfl rfl rfl rfl rfl

/-- Claim C3 (confirmed): an inbound payload that is not valid JSON
(`parseResult = none`), or is JSON but not an object with all four required
keys, decodes to the synthesized fallback `Message`: the fresh id, the
current time, sender `"external_client"`, and the raw UTF-8 text as content. -/
theorem on_message_fallback (parseResult : Option JValue)
    (topic content freshId : String) (now : Nat)
    (h : is_structured_payload parseResult = false) :
    on_message_decode parseResult topic content freshId now =
      some { id := freshId, topic := topic, content := content,
             timestamp := now, sender := some "external_client" } := by
  match parseResult with
  | none => rfl
  | some JValue.jnull => rfl
  | some (JValue.jbool b) => rfl
  | some (JValue.jnum n) => rfl
  | some (JValue.jstr s) => rfl
  | some (JValue.jarr xs) => rfl
  | some (JValue.jobj fields) =>
    have : has_required_keys fields = false := by
      simpa [is_structured_payload] using h
    simp [on_message_decode, this, fallback_message]

/-- Claim C3 witness: plain text `"ping"` (not valid JSON) published to
`"sensors/temperature"` yields the external-client fallback message. -/
theorem on_message_fallback_witness :
    is_structured_payload none = false ∧
    on_message_decode none "sensors/temperature" "ping" "fresh-id" 99 =
      some { id := "fresh-id", topic := "sensors/temperature", content := "ping",
             timestamp := 99, sender := some "external_client" } :=
  ⟨by decide, on_message_fallback none "sensors/temperature" "ping" "fresh-id" 99
    (by decide)⟩

theorem length_filter_topic_split (store : List Message) (topic : String) :
    (store.filter (fun m => m.topic != topic)).length +
      (store.filter (fun m => m.topic == topic)).length = store.length := by
  induction store with
  | nil => rfl
  | cons m ms ih =>
    by_cases h : m.topic = topic
    · simp only [List.filter_cons, h]
      simp
      omega
    · simp only [List.filter_cons]
      simp [h]
      omega

/-- Claim C4 (confirmed): `clear_topic_messages store topic` returns as count
exactly the number of stored messages with that topic, the surviving store is
a sublist of the old one (other messages unchanged, in order and
multiplicity), no survivor has the cleared topic, and every message of a
different topic survives with its multiplicity intact. -/
theorem clear_topic_messages_spec (store : List Message) (topic : String) :
    (clear_topic_messages store topic).2 =
      (store.filter (fun m => m.topic == topic)).length ∧
    (clear_topic_messages store topic).1.Sublist store ∧
    (∀ m ∈ (clear_topic_messages store topic).1, m.topic ≠ topic) ∧
    (∀ m : Message, (clear_topic_messages store topic).1.count m =
      if m.topic = topic then 0 else store.count m) := by
  refine ⟨?_, List.filter_sublist _, ?_, ?_⟩
  · have := length_filter_topic_split store topic
    simp only [clear_topic_messages]
    omega
  · intro m hm
    simpa using (List.mem_filter.mp hm).2
  · intro m
    by_cases h : m.topic = topic
    · rw [if_pos h]
      refine List.count_eq_zero.mpr (fun hmem => ?_)
      have := (List.mem_filter.mp hmem).2
      simp [h] at this
    · rw [if_neg h]
      exact List.count_filter (by simp [h])

/-- Claim C4 witness: with 5 messages on "test/messages" and 2 on "other",
clearing "test/messages" returns 5, leaves exactly the 2 others, and the
first survivor indeed has a different topic (via the spec theorem). -/
theorem clear_topic_messages_witness :
    (clear_topic_messages storeScenario4 "test/messages").2 = 5 ∧
    (clear_topic_messages storeScenario4 "test/messages").1 =
      [{ id := "3", topic := "other", content := "c", timestamp := 3, sender := none },
       { id := "6", topic := "other", content := "f", timestamp := 6, sender := none }] ∧
    ({ id := "3", topic := "other", content := "c", timestamp := 3,
       sender := none } : Message).topic ≠ "test/messages" :=
  ⟨by decide, by decide,
   (clear_topic_messages_spec storeScenario4 "test/messages").2.2.1
     { id := "3", topic := "other", content := "c", timestamp := 3, sender := none }
     (by decide)⟩

theorem push_all_length_le (cap : Nat) (msgs : List Message) :
    ∀ queue : List Message, queue.length ≤ cap →
      (push_all cap queue msgs).length ≤ cap := by
  induction msgs with
  | nil => intro queue h; exact h
  | cons m ms ih =>
    intro queue h
    show (push_all cap (put_nowait cap queue m) ms).length ≤ cap
    apply ih
    simp only [put_nowait]
    split
    · rename_i hlt
      simp only [List.length_append, List.length_singleton]
      omega
    · exact h

/-- Claim C5 (confirmed): the delivery queue never exceeds its capacity — a
push onto a full queue drops the item and leaves the queue unchanged, any
sequence of pushes starting within capacity stays within capacity, and with
capacity `cap` and no consumer, inserting `cap + 1` messages leaves at most
`cap` observable. -/
theorem delivery_queue_capacity (cap : Nat) (queue : List Message)
    (m : Message) (msgs : List Message) :
    (cap ≤ queue.length → put_nowait cap queue m = queue) ∧
    (queue.length ≤ cap → (push_all cap queue msgs).length ≤ cap) ∧
    (msgs.length = cap + 1 → (push_all cap [] msgs).length ≤ cap) := by
  refine ⟨?_, fun h => push_all_length_le cap msgs queue h, ?_⟩
  · intro h
    simp only [put_nowait]
    rw [if_neg (by omega)]
  · intro _
    exact push_all_length_le cap msgs [] (Nat.zero_le cap)

/-- Claim C5 witness: capacity 2 with three inserts and no consumer keeps at
most 2 messages; the overflowing third insert is dropped. -/
theorem delivery_queue_capacity_witness :
    (push_all 2 [] [msgA, msgB, msgA]).length ≤ 2 ∧
    push_all 2 [] [msgA, msgB, msgA] = [msgA, msgB] :=
  ⟨(delivery_queue_capacity 2 [] msgA [msgA, msgB, msgA]).2.2 (by decide),
   by decide⟩

/-- Claim C6 (confirmed): `publish_message` returns a boolean for every
possible broker outcome (totality = never raises to its caller), is false on
every broker-level rejection and on every transport error, and is true
exactly on the success reason code. -/
theorem publish_message_spec (o : PublishOutcome) (rc : Nat) :
    (rc ≠ MQTT_ERR_SUCCESS → publish_message (PublishOutcome.returned rc) = false) ∧
    publish_message PublishOutcome.raised = false ∧
    (publish_message o = true ↔ o = PublishOutcome.returned MQTT_ERR_SUCCESS) := by
  refine ⟨fun h => by simp [publish_message, h], rfl, ?_⟩
  cases o with
  | returned rc' => simp [publish_message]
  | raised => simp [publish_message]

/-- Claim C6 witness: reason code 1 (a broker rejection) yields `false`. -/
theorem publish_message_witness :
    publish_message (PublishOutcome.returned 1) = false :=
  (publish_message_spec PublishOutcome.raised 1).1 (by decide)

/-- Claim C7 (confirmed): subscribing is idempotent on the registry — on a
duplicate-free registry, subscribing twice equals subscribing once, the
result holds exactly one entry for the topic, and remains duplicate-free. -/
theorem subscribe_to_topic_idem (reg : List String) (topic : String)
    (hnd : reg.Nodup) :
    subscribe_to_topic (subscribe_to_topic reg topic) topic =
      subscribe_to_topic reg topic ∧
    (subscribe_to_topic reg topic).count topic = 1 ∧
    (subscribe_to_topic reg topic).Nodup := by
  have hmem : topic ∈ subscribe_to_topic reg topic := by
    simp only [subscribe_to_topic]
    split
    · assumption
    · simp
  have hnd' : (subscribe_to_topic reg topic).Nodup := by
    simp only [subscribe_to_topic]
    split
    · exact hnd
    · rename_i hnotmem
      simpa [List.nodup_append] using ⟨hnd, hnotmem⟩
  refine ⟨?_, ?_, hnd'⟩
  · have hstep : subscribe_to_topic (subscribe_to_topic reg topic) topic =
        if topic ∈ subscribe_to_topic reg topic then subscribe_to_topic reg topic
        else subscribe_to_topic reg topic ++ [topic] := rfl
    rw [hstep, if_pos hmem]
  · exact List.count_eq_one_of_mem hnd' hmem

/-- Claim C7 witness: subscribing twice to `"sensors/+"` over the default
registry leaves exactly one entry for it. -/
theorem subscribe_to_topic_idem_witness :
    subscribe_to_topic (subscribe_to_topic ["test/messages"] "sensors/+")
        "sensors/+" =
      subscribe_to_topic ["test/messages"] "sensors/+" ∧
    (subscribe_to_topic ["test/messages"] "sensors/+").count "sensors/+" = 1 :=
  ⟨(subscribe_to_topic_idem ["test/messages"] "sensors/+" (by decide)).1,
   (subscribe_to_topic_idem ["test/messages"] "sensors/+" (by decide)).2.1⟩

/-- Claim C9 (confirmed): when the broker publish fails, `send_to_topic` raises
and leaves both the store and the queue exactly unchanged; the message is
appended to the store and pushed onto the queue only in the success branch. -/
theorem send_to_topic_atomic (store queue : List Message) (cap : Nat)
    (topic content : String) (sender : Option String) (freshId : String)
    (now : Nat) :
    send_to_topic store queue cap false topic content sender freshId now =
      ((store, queue),
        Except.error ("Failed to send message to topic: " ++ topic)) ∧
    send_to_topic store queue cap true topic content sender freshId now =
      ((store ++ [sent_message topic content sender freshId now],
        put_nowait cap queue (sent_message topic content sender freshId now)),
        Except.ok (sent_message topic content sender freshId now)) :=
  ⟨rfl, rfl⟩

/-- Claim C10 (confirmed): a per-topic live subscription filters by exact
string equality — a dequeued message is yielded iff its topic equals the
requested topic character for character, and a non-matching message is
re-pushed onto the shared queue (its tail); in particular the filter
`"sensors/+"` wildcard-matches `"sensors/temperature"` yet the loop does not
yield that message and re-pushes it instead. -/
theorem subscription_step_exact_match (topic : String) (cap : Nat)
    (m : Message) (rest : List Message) :
    ((subscription_step topic cap (m :: rest)).2 = some m ↔ m.topic = topic) ∧
    (m.topic ≠ topic →
      subscription_step topic cap (m :: rest) = (put_nowait cap rest m, none)) ∧
    mqtt_wildcard_match "sensors/+" "sensors/temperature" = true ∧
    subscription_step "sensors/+" queue_maxsize [tempMsg] =
      (put_nowait queue_maxsize [] tempMsg, none) := by
  refine ⟨?_, ?_, by decide, by decide⟩
  · simp only [subscription_step]
    by_cases h : m.topic = topic
    · simp [h]
    · simp [h]
  · intro h
    simp only [subscription_step]
    rw [if_neg (by simpa using h)]

/-- Claim C10 witness: a dequeued message on exactly the requested topic is
yielded, and one on a different topic is re-pushed. -/
theorem subscription_step_exact_match_witness :
    (subscription_step "alerts/system" queue_maxsize
        [{ id := "a", topic := "alerts/system", content := "up", timestamp := 1,
           sender := none }]).2 =
      some { id := "a", topic := "alerts/system", content := "up", timestamp := 1,
             sender := none } ∧
    subscription_step "test/messages" queue_maxsize [tempMsg] =
      (put_nowait queue_maxsize [] tempMsg, none) := by
  constructor
  · exact (subscription_step_exact_match "alerts/system" queue_maxsize
      { id := "a", topic := "alerts/system", content := "up", timestamp := 1,
        sender := none } []).1.mpr (by decide)
  · exact (subscription_step_exact_match "test/messages" queue_maxsize
      tempMsg []).2.1 (by decide)

theorem upd_stats_names (stats : List (String × Nat × Nat)) (m : Message) :
    (upd_stats stats m).map Prod.fst =
      if m.topic ∈ stats.map Prod.fst then stats.map Prod.fst
      else stats.map Prod.fst ++ [m.topic] := by
  induction stats with
  | nil => simp [upd_stats]
  | cons e rest ih =>
    obtain ⟨t, c, lt⟩ := e
    by_cases h : m.topic = t
    · simp [upd_stats, h]
    · have hne : (m.topic == t) = false := beq_eq_false_iff_ne.mpr h
      rw [show upd_stats ((t, c, lt) :: rest) m = (t, c, lt) :: upd_stats rest m
        by simp [upd_stats, hne]]
      by_cases hmem : m.topic ∈ rest.map Prod.fst
      · rw [List.map_cons, ih, if_pos hmem, if_pos (by simp [hmem])]
        rfl
      · rw [List.map_cons, ih, if_neg hmem,
          if_neg (by simp [hmem, h])]
        rfl

theorem upd_stats_of_not_mem (stats : List (String × Nat × Nat)) (m : Message)
    (hmem : m.topic ∉ stats.map Prod.fst) :
    upd_stats stats m = stats ++ [(m.topic, 1, m.timestamp)] := by
  induction stats with
  | nil => rfl
  | cons e rest ih =>
    obtain ⟨t, c, lt⟩ := e
    have h : m.topic ≠ t := by
      intro hh
      exact hmem (by simp [hh])
    have hne : (m.topic == t) = false := beq_eq_false_iff_ne.mpr h
    rw [show upd_stats ((t, c, lt) :: rest) m = (t, c, lt) :: upd_stats rest m
      by simp [upd_stats, hne]]
    rw [ih (fun hh => hmem (by simp [hh]))]
    rfl

theorem upd_stats_mem_cases (stats : List (String × Nat × Nat)) (m : Message)
    (hnd : (stats.map Prod.fst).Nodup) (e : String × Nat × Nat)
    (h : e ∈ upd_stats stats m) :
    (e ∈ stats ∧ e.1 ≠ m.topic) ∨
    (∃ c lt, (m.topic, c, lt) ∈ stats ∧
      e = (m.topic, c + 1, if lt < m.timestamp then m.timestamp else lt)) ∨
    (m.topic ∉ stats.map Prod.fst ∧ e = (m.topic, 1, m.timestamp)) := by
  induction stats with
  | nil =>
    right; right
    simp only [upd_stats, List.mem_singleton] at h
    exact ⟨by simp, h⟩
  | cons p rest ih =>
    obtain ⟨t, c, lt⟩ := p
    rw [List.map_cons, List.nodup_cons] at hnd
    by_cases htop : m.topic = t
    · rw [show upd_stats ((t, c, lt) :: rest) m =
          (t, c + 1, if lt < m.timestamp then m.timestamp else lt) :: rest
        by simp [upd_stats, htop]] at h
      rcases List.mem_cons.mp h with h | h
    -- updated head entry
      · right; left
        exact ⟨c, lt, by simp [htop], by rw [h, htop]⟩
    -- untouched tail entry: its key differs from the head key `t = m.topic`
      · left
        refine ⟨List.mem_cons_of_mem _ h, fun hh => ?_⟩
        have he1 : e.1 ∈ rest.map Prod.fst := List.mem_map_of_mem Prod.fst h
        rw [hh, htop] at he1
        exact hnd.1 he1
    · have hne : (m.topic == t) = false := beq_eq_false_iff_ne.mpr htop
      rw [show upd_stats ((t, c, lt) :: rest) m = (t, c, lt) :: upd_stats rest m
        by simp [upd_stats, hne]] at h
      rcases List.mem_cons.mp h with h | h
      · left
        refine ⟨by simp [h], fun hh => htop ?_⟩
        rw [h] at hh
        exact hh.symm
      · rcases ih hnd.2 h with hc | hc | hc
        · exact Or.inl ⟨List.mem_cons_of_mem _ hc.1, hc.2⟩
        · obtain ⟨c', lt', hcmem, hceq⟩ := hc
          exact Or.inr (Or.inl ⟨c', lt', List.mem_cons_of_mem _ hcmem, hceq⟩)
        · refine Or.inr (Or.inr ⟨?_, hc.2⟩)
          simp only [List.map_cons, List.mem_cons]
          rintro (hh | hh)
          · exact htop hh
          · exact hc.1 hh

theorem filter_topic_eq_nil (processed : List Message) (t : String)
    (h : t ∉ processed.map Message.topic) :
    processed.filter (fun m => m.topic == t) = [] := by
  rw [List.filter_eq_nil_iff]
  intro m hm
  simp only [beq_iff_eq]
  intro hh
  exact h (hh ▸ List.mem_map_of_mem Message.topic hm)

theorem entry_ok_extend (processed : List Message) (m : Message)
    (e : String × Nat × Nat) (he : entry_ok processed e) (hne : e.1 ≠ m.topic) :
    entry_ok (processed ++ [m]) e := by
  have hfilter : (processed ++ [m]).filter (fun x => x.topic == e.1) =
      processed.filter (fun x => x.topic == e.1) := by
    rw [List.filter_append]
    have : (m.topic == e.1) = false :=
      beq_eq_false_iff_ne.mpr (fun hh => hne hh.symm)
    simp [List.filter_cons, this]
  unfold entry_ok
  rw [hfilter]
  exact he

theorem stats_ok_step (processed : List Message)
    (stats : List (String × Nat × Nat)) (m : Message)
    (h : stats_ok processed stats) :
    stats_ok (processed ++ [m]) (upd_stats stats m) := by
  obtain ⟨hnd, hiff, hent⟩ := h
  have htopics : (processed ++ [m]).map Message.topic =
      processed.map Message.topic ++ [m.topic] := by simp
  by_cases hmem : m.topic ∈ stats.map Prod.fst
  · -- the dict already has an entry for `m.topic`: it is updated in place
    refine ⟨?_, ?_, ?_⟩
    · rw [upd_stats_names, if_pos hmem]
      exact hnd
    · intro t
      rw [upd_stats_names, if_pos hmem, htopics, List.mem_append]
      constructor
      · intro ht
        exact Or.inl ((hiff t).mp ht)
      · rintro (ht | ht)
        · exact (hiff t).mpr ht
        · simp only [List.mem_singleton] at ht
          exact ht ▸ hmem
    · intro e he
      rcases upd_stats_mem_cases stats m hnd e he with hc | hc | hc
      · exact entry_ok_extend processed m e (hent e hc.1) hc.2
      · obtain ⟨c, lt, hold, heq⟩ := hc
        obtain ⟨hcount, hmax_mem, hmax_ub⟩ := hent _ hold
        simp only at hcount hmax_mem hmax_ub
        have hfilter : (processed ++ [m]).filter (fun x => x.topic == m.topic) =
            processed.filter (fun x => x.topic == m.topic) ++ [m] := by
          rw [List.filter_append]
          simp [List.filter_cons]
        subst heq
        refine ⟨?_, ?_, ?_⟩
        · simp only [hfilter, List.length_append, List.length_singleton]
          omega
        · simp only [hfilter, List.map_append, List.mem_append]
          by_cases hlt : lt < m.timestamp
          · right; simp [hlt]
          · left; simpa [hlt] using hmax_mem
        · intro x hx
          simp only [hfilter, List.map_append, List.mem_append] at hx
          rcases hx with hx | hx
          · have := hmax_ub x hx
            simp only
            split <;> omega
          · simp only [List.map_cons, List.map_nil, List.mem_singleton] at hx
            subst hx
            simp only
            split <;> omega
      · exact absurd hmem hc.1
  · -- a fresh topic: a new entry is appended to the dict
    rw [upd_stats_of_not_mem stats m hmem]
    have hempty : processed.filter (fun x => x.topic == m.topic) = [] :=
      filter_topic_eq_nil processed m.topic (fun hh => hmem ((hiff m.topic).mpr hh))
    refine ⟨?_, ?_, ?_⟩
    · simp only [List.map_append, List.map_cons, List.map_nil]
      rw [List.nodup_append]
      exact ⟨hnd, List.nodup_singleton _, by simpa using hmem⟩
    · intro t
      simp only [List.map_append, List.map_cons, List.map_nil, List.mem_append,
        htopics, List.mem_singleton]
      constructor
      · rintro (ht | ht)
        · exact Or.inl ((hiff t).mp ht)
        · exact Or.inr (by simpa using ht)
      · rintro (ht | ht)
        · exact Or.inl ((hiff t).mpr ht)
        · exact Or.inr (by simp [ht])
    · intro e he
      rcases List.mem_append.mp he with he | he
      · refine entry_ok_extend processed m e (hent e he) (fun hh => ?_)
        exact hmem (hh ▸ List.mem_map_of_mem Prod.fst he)
      · simp only [List.mem_singleton] at he
        subst he
        have hfil : (processed ++ [m]).filter (fun x => x.topic == m.topic) = [m] := by
          rw [List.filter_append, hempty]
          simp [List.filter_cons]
        refine ⟨?_, ?_, ?_⟩
        · simp [hfil]
        · simp [hfil]
        · intro x hx
          simp only [hfil, List.map_cons, List.map_nil, List.mem_singleton] at hx
          simp [hx]

theorem stats_ok_foldl (rest : List Message) :
    ∀ (processed : List Message) (stats : List (String × Nat × Nat)),
      stats_ok processed stats →
      stats_ok (processed ++ rest) (rest.foldl upd_stats stats) := by
  induction rest with
  | nil => intro processed stats h; simpa using h
  | cons m ms ih =>
    intro processed stats h
    have := ih (processed ++ [m]) (upd_stats stats m) (stats_ok_step processed stats m h)
    simpa using this

theorem topic_stats_ok (store : List Message) :
    stats_ok store (topic_stats store) := by
  have hnil : stats_ok [] [] := by
    refine ⟨List.nodup_nil, ?_, ?_⟩
    · intro t; simp
    · intro e he; simp at he
  simpa using stats_ok_foldl store [] [] hnil

/-- Claim C8 (confirmed): `query_all_topics` returns exactly one entry per
distinct topic observed in the store, with `message_count` the number of
stored messages with that topic and `last_message_time` the maximum timestamp
seen for that topic (one actually carried by such a message), ordered by
`last_message_time` descending — entries without a timestamp (key
`datetime.min`, modelled by `getD 0`) sorting last, vacuously, as every
produced entry carries one. -/
theorem query_all_topics_spec (store : List Message) (reg : List String) :
    ((query_all_topics store reg).map TopicInfo.name).Nodup ∧
    (∀ t : String, t ∈ (query_all_topics store reg).map TopicInfo.name ↔
      t ∈ store.map Message.topic) ∧
    (∀ info ∈ query_all_topics store reg,
      info.message_count = (store.filter (fun m => m.topic == info.name)).length ∧
      ∃ mt : Nat, info.last_message_time = some mt ∧
        mt ∈ (store.filter (fun m => m.topic == info.name)).map Message.timestamp ∧
        ∀ x ∈ (store.filter (fun m => m.topic == info.name)).map Message.timestamp,
          x ≤ mt) ∧
    (query_all_topics store reg).Pairwise
      (fun a b => b.last_message_time.getD 0 ≤ a.last_message_time.getD 0) := by
  obtain ⟨hnd, hiff, hent⟩ := topic_stats_ok store
  have hperm : (query_all_topics store reg).Perm
      ((topic_stats store).map (fun e =>
        ({ name := e.1, message_count := e.2.1, last_message_time := some e.2.2,
           is_subscribed := reg.contains e.1 } : TopicInfo))) :=
    sortByKeyDesc_perm _ _
  have hnames : ((topic_stats store).map (fun e =>
      ({ name := e.1, message_count := e.2.1, last_message_time := some e.2.2,
         is_subscribed := reg.contains e.1 } : TopicInfo))).map TopicInfo.name =
      (topic_stats store).map Prod.fst := by
    rw [List.map_map]
    rfl
  refine ⟨?_, ?_, ?_, sortByKeyDesc_pairwise _ _⟩
  · exact ((hperm.map TopicInfo.name).nodup_iff).mpr (hnames ▸ hnd)
  · intro t
    rw [(hperm.map TopicInfo.name).mem_iff, hnames]
    exact hiff t
  · intro info hinfo
    have : info ∈ (topic_stats store).map (fun e =>
        ({ name := e.1, message_count := e.2.1, last_message_time := some e.2.2,
           is_subscribed := reg.contains e.1 } : TopicInfo)) :=
      hperm.mem_iff.mp hinfo
    obtain ⟨e, hemem, heq⟩ := List.mem_map.mp this
    obtain ⟨hcount, hmax_mem, hmax_ub⟩ := hent e hemem
    subst heq
    exact ⟨hcount.symm ▸ rfl, e.2.2, rfl, hmax_mem, hmax_ub⟩

/-- Claim C8 witness: on the concrete two-topic store the result is the two
aggregate entries in descending `last_message_time` order, and the "a"
entry's count equals the filtered store's length (via the spec theorem). -/
theorem query_all_topics_spec_witness :
    query_all_topics storeTwoTopics ["sensors/+"] =
      [{ name := "a", message_count := 2, last_message_time := some 8,
         is_subscribed := false },
       { name := "sensors/temperature", message_count := 1,
         last_message_time := some 3, is_subscribed := false }] ∧
    ({ name := "a", message_count := 2, last_message_time := some 8,
       is_subscribed := false } : TopicInfo).message_count =
      (storeTwoTopics.filter (fun m => m.topic == "a")).length :=
  ⟨by decide,
   ((query_all_topics_spec storeTwoTopics ["sensors/+"]).2.2.1
     { name := "a", message_count := 2, last_message_time := some 8,
       is_subscribed := false } (by decide)).1⟩

end MqttServer
